import Mathlib

set_option maxRecDepth 4000

/-!
Shallow embedding of the memory subsystem of `src/backend/memory_manager.py`
(the Dedup-and-Create pipeline, the retrieval pipeline, the condensation
pipeline with provider retry/fallback, and the autosave preference helpers).

Modelling conventions:
* Python `str` values that the code slices, splits or searches are modelled as
  `List Char` (`Str`); identifiers compared only for equality (owners, model
  ids, table actions) stay `String`.
* Python floats are modelled as `ℚ`.  `np.linalg.norm` computes a square root,
  which is not rational; it is threaded through as an explicit oracle
  `sqrtQ : ℚ → ℚ`, applied to the exact sum of squares.  Every theorem holds
  for an arbitrary `sqrtQ`, and witnesses instantiate it on vectors whose
  norms are rational.
* The external row store (supabase/Postgres) is modelled as a `List MemRow`
  passed and returned explicitly; a select with order/limit is modelled by
  filtering, a stable descending insertion sort, and `take`.
* Fallible calls (embedding, the LLM provider, `np.dot` on mismatched shapes)
  are modelled with `Option`/`Except` results.
-/

namespace MemoryManager

/-- Character list standing for a Python `str` that gets sliced or searched. -/
abbrev Str := List Char

/-- Embedding vector (`List[float]` in the source). -/
abbrev Vec := List ℚ

/-- JSON-like values stored in the open `metadata` map of a memory row. -/
inductive MVal where
  | null
  | bool (b : Bool)
  | num (q : ℚ)
  | str (s : Str)
  | arr (xs : List MVal)
  | obj (fields : List (String × MVal))

/-- An open key/value metadata map (a Python `dict`, insertion ordered). -/
abbrev Meta := List (String × MVal)

/-- Dictionary lookup: value of the first binding of key `k`. -/
def metaLookup (k : String) : Meta → Option MVal
  | [] => none
  | (k2, v) :: rest => if k2 = k then some v else metaLookup k rest

/-- Python dict assignment `m[k] = v`: replace in place if the key exists
(keeping its position), otherwise append the binding at the end. -/
def metaAssign (k : String) (v : MVal) : Meta → Meta
  | [] => [(k, v)]
  | (k2, v2) :: rest =>
    if k2 = k then (k2, v) :: rest else (k2, v2) :: metaAssign k v rest

/-- Translation of `current_meta.setdefault("references", []).append(metadata)`
(memory_manager.py line 132).  If the key is absent a fresh one-element list is
created; if it holds a list the new metadata dict is appended; if it holds a
non-list, `.append` raises `AttributeError`, the surrounding
`except Exception: pass` fires, and `upd_meta` keeps the caller's metadata. -/
def mergeReferences (cur : Meta) (metadata : Meta) : Meta :=
  match metaLookup "references" cur with
  | none => cur ++ [("references", MVal.arr [MVal.obj metadata])]
  | some (MVal.arr xs) => metaAssign "references" (MVal.arr (xs ++ [MVal.obj metadata])) cur
  | some _ => metadata

/-- Metadata map written by a dedup merge: since the dedup query projects the
candidate's metadata away, the merged map always is exactly a one-binding map
holding the references list with the new call's metadata. -/
def mergedMeta (metadata : Meta) : Meta :=
  [("references", MVal.arr [MVal.obj metadata])]

/-- A row of the `memories` table.  `content` and `tags` are the legacy
columns the insert payload populates; `created_at`/`updated_at` are server
timestamps modelled as `Nat`. -/
structure MemRow where
  id : Nat
  owner : String
  title : Str
  memory_text : Str
  content : Str
  tags : List Str
  embedding : Option Vec
  metadata : Meta
  created_at : Nat
  updated_at : Nat

instance : Inhabited MemRow := ⟨⟨0, "", [], [], [], [], none, [], 0, 0⟩⟩

/-- Projection returned by the dedup query
`select("id, memory_text, embedding, updated_at")` (line 108): the candidate
rows carry no `metadata` key, so `r.get("metadata")` yields `None`. -/
structure RecentRow where
  id : Nat
  memory_text : Str
  embedding : Option Vec
  updated_at : Nat

def projectRecent (r : MemRow) : RecentRow :=
  ⟨r.id, r.memory_text, r.embedding, r.updated_at⟩

/-- Stable descending sort by a `Nat` key: the model of a store
`order(col, desc=True)` clause. -/
def sortKeyDesc {α : Type} (key : α → Nat) (l : List α) : List α :=
  List.insertionSort (fun a b => key b ≤ key a) l

/-- Stable descending sort by a `ℚ` key (used for similarity rankings). -/
def sortRatKeyDesc {α : Type} (key : α → ℚ) (l : List α) : List α :=
  List.insertionSort (fun a b => key b ≤ key a) l

/-- An entry of the append-only `memory_logs` audit table. -/
structure LogEntry where
  user_id : Option String
  memory_id : Option Nat
  action : String
  details : Meta

/-- Dot product `np.dot(a, b)` on equal-length vectors. -/
def dot (a b : Vec) : ℚ := (List.zipWith (fun x y => x * y) a b).sum

/-- Sum of squares of a vector; `np.linalg.norm v = sqrt (sumSq v)`. -/
def sumSq (v : Vec) : ℚ := (v.map (fun x => x * x)).sum

/-- Shared core of `_cos_sim` (lines 115-118) and the inline fallback scoring
(lines 227-229): `denom = (norm(a) * norm(b)) or 1.0; dot(a, b) / denom`.
A zero denominator (zero norm) is replaced by `1.0` by Python's `or`. -/
def simVal (sqrtQ : ℚ → ℚ) (a b : Vec) : ℚ :=
  let denom := sqrtQ (sumSq a) * sqrtQ (sumSq b)
  dot a b / (if denom = 0 then 1 else denom)

/-- Total model of `_cos_sim`: `np.dot` raises `ValueError` on vectors of
different lengths (`none` here); otherwise the quotient above. -/
def cosSimE (sqrtQ : ℚ → ℚ) (a b : Vec) : Option ℚ :=
  if a.length = b.length then some (simVal sqrtQ a b) else none

/-- The merged version of a stored row: timestamp refreshed, metadata
replaced by the references-only map. -/
def mergedRow (now : Nat) (metadata : Meta) (x : MemRow) : MemRow :=
  { x with updated_at := now, metadata := mergedMeta metadata }

/-- Store-wide effect of the dedup update query
`update({...}).eq("id", r["id"]).eq("owner", user_id)`. -/
def dedupUpdate (now : Nat) (metadata : Meta) (rid : Nat) (user : String)
    (st : List MemRow) : List MemRow :=
  st.map (fun x => if x.id = rid ∧ x.owner = user then mergedRow now metadata x else x)

/-- Dedup candidate query of `create_memory` (lines 105-113): the owner's 50
most-recently-updated rows, projected to the four selected columns. -/
def recentForDedup (st : List MemRow) (user : String) : List RecentRow :=
  ((sortKeyDesc (fun r => r.updated_at) (st.filter (fun r => r.owner = user))).take 50).map
    projectRecent

/-- Result of `create_memory`: the updated store, the returned row, whether a
dedup merge happened, and the audit log entries written. -/
structure CreateOut where
  store : List MemRow
  row : MemRow
  merged : Bool
  logs : List LogEntry

/-- Dedup scan of `create_memory` (lines 121-145): walk the candidates in
order; skip candidates without a non-empty list embedding; a `ValueError`
inside `_cos_sim` (length mismatch) is caught by `except Exception: continue`;
on the first similarity above `0.9`, update the row's `updated_at` and
`metadata` (the candidates carry no metadata key, so `r.get("metadata") or` an
empty dict is merged), log `updated`/`dedup`, and return the re-fetched row. -/
def dedupLoop (sqrtQ : ℚ → ℚ) (st : List MemRow) (user : String) (metadata : Meta)
    (new_vec : Vec) (now : Nat) : List RecentRow → Option CreateOut
  | [] => none
  | r :: rest =>
    match r.embedding with
    | some emb =>
      if emb = [] then dedupLoop sqrtQ st user metadata new_vec now rest
      else
        match cosSimE sqrtQ new_vec emb with
        | none => dedupLoop sqrtQ st user metadata new_vec now rest
        | some s =>
          if (0.9 : ℚ) < s then
            let current_meta : Meta := []
            let upd_meta := mergeReferences current_meta metadata
            let st2 := st.map (fun x =>
              if x.id = r.id ∧ x.owner = user then
                { x with updated_at := now, metadata := upd_meta }
              else x)
            let existing := (st2.find? (fun x => x.id = r.id)).getD default
            some ⟨st2, existing, true,
              [⟨some user, some r.id, "updated", [("reason", MVal.str "dedup".toList)]⟩]⟩
          else dedupLoop sqrtQ st user metadata new_vec now rest
    | none => dedupLoop sqrtQ st user metadata new_vec now rest

/-- Insert payload of `create_memory` (lines 147-163): truncated title and
text, legacy `content`/`tags` columns, and, when an embedding is present, the
vector itself plus a redundant `embedding_copy` inside the metadata. -/
def payloadRow (now newId : Nat) (user : String) (title memory_text : Str)
    (new_vec? : Option Vec) (metadata : Meta) : MemRow :=
  { id := newId, owner := user,
    title := title.take 100, memory_text := memory_text.take 600,
    content := memory_text.take 600, tags := [],
    embedding := new_vec?,
    metadata :=
      match new_vec? with
      | some v => metaAssign "embedding_copy" (MVal.arr (v.map MVal.num)) metadata
      | none => metadata,
    created_at := now, updated_at := now }

/-- Model of `create_memory(user_id, title, memory_text, metadata)`
(lines 94-166).  `embed` is the embedding capability (`None` on failure),
`now` the server timestamp, `newId` the store-assigned id of a fresh row. -/
def create_memory (sqrtQ : ℚ → ℚ) (embed : Str → Option Vec) (st : List MemRow)
    (now newId : Nat) (user : String) (title memory_text : Str)
    (metadata? : Option Meta) : CreateOut :=
  let metadata := metadata?.getD []
  let new_vec? := embed memory_text
  let recent := recentForDedup st user
  let mergedOut :=
    match new_vec? with
    | some new_vec => dedupLoop sqrtQ st user metadata new_vec now recent
    | none => none
  match mergedOut with
  | some out => out
  | none =>
    let row := payloadRow now newId user title memory_text new_vec? metadata
    ⟨st ++ [row], row, false, [⟨some user, some newId, "created", []⟩]⟩

/-- Model of `delete_memory(user_id, memory_id)` (lines 79-91): delete where
both id and owner match; never raise, and log `deleted` regardless. -/
def delete_memory (st : List MemRow) (user : String) (mid : Nat) :
    List MemRow × List LogEntry :=
  (st.filter (fun x => ¬(x.id = mid ∧ x.owner = user)),
   [⟨some user, some mid, "deleted", []⟩])

/-- Model of `list_memories(user_id, limit, offset)` (lines 66-76): order by
`created_at` descending, then the supabase `range(offset, offset + max(limit - 1, 0))`,
which is inclusive of both ends. -/
def list_memories (st : List MemRow) (user : String) (limit offset : Nat) :
    List MemRow :=
  let sorted := sortKeyDesc (fun r => r.created_at) (st.filter (fun r => r.owner = user))
  (sorted.drop offset).take ((max ((limit : ℤ) - 1) 0).toNat + 1)

/-- Outcome of scoring one fallback candidate (lines 225-230):
`raised` models the `ValueError`/`TypeError` numpy raises (not caught there,
so it aborts the whole fallback), `skipped` the `isinstance(emb, list) and emb`
guard failing, `val s` a computed similarity. -/
inductive ScoreRes where
  | raised
  | skipped
  | val (s : ℚ)

/-- Numeric JSON leaf, for reading an `embedding_copy` back out of metadata. -/
def numOf : MVal → Option ℚ
  | MVal.num q => some q
  | _ => none

def consVec (q : ℚ) : Option Vec → Option Vec
  | some tl => some (q :: tl)
  | none => none

def consNum (rest : Option Vec) : Option ℚ → Option Vec
  | some q => consVec q rest
  | none => none

/-- Reading a JSON list back as a numeric vector (`np.array(emb)` plus the
numeric operations, which raise on non-numeric entries — `none` here). -/
def toVecM : List MVal → Option Vec
  | [] => some []
  | v :: tl => consNum (toVecM tl) (numOf v)

/-- Value used as the candidate's vector in the fallback path (line 225),
split on the stored `embedding` column:
`m.get("embedding") or (m.get("metadata") or dict()).get("embedding_copy")`;
a present-but-empty `embedding` list is falsy, so the copy is consulted. -/
def fallbackEmbVal (m : MemRow) : Option Vec → Option MVal
  | some e => if e = [] then metaLookup "embedding_copy" m.metadata
              else some (MVal.arr (e.map MVal.num))
  | none => metaLookup "embedding_copy" m.metadata

def fallbackEmb (m : MemRow) : Option MVal := fallbackEmbVal m m.embedding

/-- Scoring once the candidate vector has been read back out of JSON:
`none` is a non-numeric entry (numpy raises); a length mismatch with the
query also raises; otherwise the inline cosine formula of lines 227-229. -/
def scoreVecCand (sqrtQ : ℚ → ℚ) (q : Vec) : Option Vec → ScoreRes
  | some v =>
    if v.length = q.length then ScoreRes.val (simVal sqrtQ q v) else ScoreRes.raised
  | none => ScoreRes.raised

/-- Scoring of the raw candidate value: `isinstance(emb, list) and emb` skips
anything that is not a non-empty list (line 226). -/
def scoreEmbVal (sqrtQ : ℚ → ℚ) (q : Vec) : Option MVal → ScoreRes
  | some (MVal.arr xs) =>
    if xs.isEmpty then ScoreRes.skipped else scoreVecCand sqrtQ q (toVecM xs)
  | some _ => ScoreRes.skipped
  | none => ScoreRes.skipped

/-- Per-candidate scoring of the brute-force fallback (lines 224-230). -/
def scoreRow (sqrtQ : ℚ → ℚ) (q : Vec) (m : MemRow) : ScoreRes :=
  scoreEmbVal sqrtQ q (fallbackEmb m)

/-- Effect of one candidate's score on the accumulated `scored` list. -/
def scoreStep (m : MemRow) (rest : Option (List (ℚ × MemRow))) :
    ScoreRes → Option (List (ℚ × MemRow))
  | ScoreRes.raised => none
  | ScoreRes.skipped => rest
  | ScoreRes.val s =>
    match rest with
    | some tl => some ((s, m) :: tl)
    | none => none

/-- The `scored` list of the fallback loop; `none` models an uncaught numpy
exception escaping `retrieve_relevant_memories`. -/
def scoreFold (sqrtQ : ℚ → ℚ) (q : Vec) : List MemRow → Option (List (ℚ × MemRow))
  | [] => some []
  | m :: rest => scoreStep m (scoreFold sqrtQ q rest) (scoreRow sqrtQ q m)

/-- Ranking tail of the fallback: sort by similarity descending (Python's
stable `list.sort` with `reverse=True` keyed on the similarity), keep the top
`k`, and attach the similarity to each row. -/
def rankScored (k : Nat) : Option (List (ℚ × MemRow)) → Option (List (MemRow × ℚ))
  | none => none
  | some scored =>
    some (((sortRatKeyDesc (fun p => p.1) scored).take k).map (fun p => (p.2, p.1)))

/-- Brute-force fallback path of `retrieve_relevant_memories` (lines 211-237):
fetch the owner's 200 most-recently-updated rows, score every candidate with a
usable vector, sort by similarity descending, and keep the top `k`. -/
def fallbackRetrieve (sqrtQ : ℚ → ℚ) (st : List MemRow) (user : String) (qv : Vec)
    (k : Nat) : Option (List (MemRow × ℚ)) :=
  let res := (sortKeyDesc (fun r => r.updated_at)
    (st.filter (fun r => r.owner = user))).take 200
  rankScored k (scoreFold sqrtQ qv res)

/-- Similarity attached to one row by the native query: `NULL` (no ranking
value) without a stored vector, the cosine similarity otherwise. -/
def nativeCand (sqrtQ : ℚ → ℚ) (qv : Vec) (r : MemRow) :
    Option Vec → Option (MemRow × ℚ)
  | some e => (cosSimE sqrtQ qv e).map (fun s => (r, s))
  | none => none

/-- Modelled from the spec: the native vector-distance path of
`retrieve_relevant` (spec section 4.4 step 2) is executed by the external
store (`SELECT ... 1 - (embedding <=> query) AS similarity ... ORDER BY
similarity DESC LIMIT k`, lines 177-181), whose vector index is not part of
this repository.  Per the spec it ranks the owner's rows by cosine similarity
(1 minus cosine distance) descending and returns the top `k` with the
similarity attached; rows without a comparable stored vector are not ranked. -/
def nativeRetrieve (sqrtQ : ℚ → ℚ) (st : List MemRow) (user : String) (qv : Vec)
    (k : Nat) : List (MemRow × ℚ) :=
  let cands := (st.filter (fun r => r.owner = user)).filterMap
    (fun r => nativeCand sqrtQ qv r r.embedding)
  (sortRatKeyDesc (fun p => p.2) cands).take k

/-- Response of one call to the text-generation provider, as classified by
`_call_provider` (lines 283-321): a text, an `openai.APIStatusError` with its
status code and message, or any other exception. -/
inductive ProviderResp where
  | ok (text : Str)
  | apiStatusErr (status : Option Int) (msg : Str)
  | otherErr (msg : Str)

/-- Observable step of `_call_provider`: a backoff sleep, a
`chat.completions.create` call, or a legacy `completions.create` call. -/
inductive CallEvent where
  | sleep (d : ℚ)
  | chatCall
  | complCall
deriving DecidableEq

/-- ASCII lowering of one character (model of `str.lower` on ASCII text). -/
def asciiLower (c : Char) : Char :=
  if 65 ≤ c.toNat ∧ c.toNat ≤ 90 then Char.ofNat (c.toNat + 32) else c

def lowerStr (s : Str) : Str := s.map asciiLower

/-- Substring test (Python `pat in s`). -/
def containsSeq (pat : Str) : Str → Bool
  | [] => pat.isPrefixOf []
  | c :: rest => pat.isPrefixOf (c :: rest) || containsSeq pat rest

/-- Classifier of line 306: a 400 response whose lowered message mentions
`not a chat model` or `model_not_supported` triggers the legacy completions
fallback. -/
def notChatErr (status : Option Int) (msg : Str) : Bool :=
  status = some 400 &&
    (containsSeq "not a chat model".toList (lowerStr msg) ||
     containsSeq "model_not_supported".toList (lowerStr msg))

/-- Events recorded for one attempt of the retry loop: `if delay:
time.sleep(delay)` (a sleep only for a nonzero delay) followed by the
`chat.completions.create` call. -/
def attemptEvents (d : ℚ) : List CallEvent :=
  (if d = 0 then [] else [CallEvent.sleep d]) ++ [CallEvent.chatCall]

/-- Legacy `completions.create` retry of lines 306-316, reached on a 400
`not a chat model` chat response: one extra provider call whose success is
returned and whose failure is surfaced (aborting the candidate). -/
def completionsFallback (d : ℚ) (n : Nat) :
    ProviderResp → Except Str Str × Nat × List CallEvent
  | ProviderResp.ok t =>
    (Except.ok t, n + 2, attemptEvents d ++ [CallEvent.complCall])
  | ProviderResp.apiStatusErr _ m2 =>
    (Except.error ("Upstream model provider error (completions): ".toList ++ m2),
     n + 2, attemptEvents d ++ [CallEvent.complCall])
  | ProviderResp.otherErr m2 =>
    (Except.error m2, n + 2, attemptEvents d ++ [CallEvent.complCall])

/-- Handling of one chat-call response inside `_call_provider` (lines
289-318): success returns; statuses 429/502/503 are transient and continue
with the same model (`rec0` is the rest of the retry loop); a 400
`not a chat model` tries the completions API once (`next` is that call's
response); any other `APIStatusError` is wrapped and surfaced; any other
exception propagates as is. -/
def callProviderStep (d : ℚ) (n : Nat) (next : ProviderResp)
    (rec0 : Str → Except Str Str × Nat × List CallEvent) :
    ProviderResp → Except Str Str × Nat × List CallEvent
  | ProviderResp.ok t => (Except.ok t, n + 1, attemptEvents d)
  | ProviderResp.apiStatusErr status msg =>
    if status = some 429 ∨ status = some 502 ∨ status = some 503 then
      ((rec0 msg).1, (rec0 msg).2.1, attemptEvents d ++ (rec0 msg).2.2)
    else if notChatErr status msg then
      completionsFallback d n next
    else
      (Except.error ("Upstream model provider error: ".toList ++ msg),
       n + 1, attemptEvents d)
  | ProviderResp.otherErr m => (Except.error m, n + 1, attemptEvents d)

/-- Model of the per-candidate retry loop of `_call_provider` (lines 283-321).
The provider is an oracle from the index of the call (chat and completions
calls both consume an index) to its response.  Walks the backoff schedule,
handling each response with `callProviderStep`; a drained schedule raises the
last transient error (or `unknown` when no attempt was made). -/
def callProviderLoop (provider : Nat → ProviderResp) :
    List ℚ → Nat → Option Str → Except Str Str × Nat × List CallEvent
  | [], n, lastErr =>
    (Except.error (match lastErr with
      | some m => "Upstream model provider error: ".toList ++ m
      | none => "Upstream model provider error: unknown".toList), n, [])
  | delay :: rest, n, _lastErr =>
    callProviderStep delay n (provider (n + 1))
      (fun msg => callProviderLoop provider rest (n + 1) (some msg)) (provider n)

/-- Model candidate list of lines 253-255:
`[m.strip() for m in [primary_model] + fallbacks_raw.split(",") if m.strip()]`.
Identifier strings are kept abstract, with a trim oracle folded in. -/
def modelCandidates (primary : String) (fallbacks : List String) : List String :=
  (primary :: fallbacks).filter (fun m => m ≠ "")

/-- Candidate loop of `condense_conversation_to_memory` (lines 323-335): try
each model through `_call_provider`; the first success wins; every failure is
remembered and the last one is re-raised when all candidates fail. -/
def tryCandidates (provider : Nat → ProviderResp) (schedule : List ℚ) :
    List String → Nat → Option Str → Except Str Str × Nat × List (List CallEvent)
  | [], n, lastExc =>
    (match lastExc with
     | some e => Except.error e
     | none => Except.error [], n, [])
  | _mid :: rest, n, _lastExc =>
    let att := callProviderLoop provider schedule n none
    match att.1 with
    | Except.ok t => (Except.ok t, att.2.1, [att.2.2])
    | Except.error e =>
      let rec0 := tryCandidates provider schedule rest att.2.1 (some e)
      (rec0.1, rec0.2.1, att.2.2 :: rec0.2.2)

/-- Index of the first occurrence of `c` (Python `text.find(c)`, `None` for -1). -/
def strFindChar (s : Str) (c : Char) : Option Nat := s.indexOf? c

/-- Index of the last occurrence of `c` (Python `text.rfind(c)`). -/
def strRFindChar (s : Str) (c : Char) : Option Nat :=
  (s.reverse.indexOf? c).map (fun i => s.length - 1 - i)

/-- Permissive JSON-array extraction of lines 345-356: parse strictly and keep
the result only if it is a list; otherwise parse the slice from the first `[`
to the last `]`; on any failure the statement list is empty.  `jp` is the
`json.loads` oracle.  (A bracket-delimited document accepted by a JSON parser
is necessarily an array, so the slice branch also keeps only arrays.) -/
def extractItems (jp : Str → Option MVal) (text : Str) : List MVal :=
  match jp text with
  | some (MVal.arr xs) => xs
  | some _ => []
  | none =>
    match strFindChar text '[', strRFindChar text ']' with
    | some s, some e =>
      if s ≤ e then
        match jp ((text.drop s).take (e + 1 - s)) with
        | some (MVal.arr xs) => xs
        | _ => []
      else []
    | _, _ => []

/-- Python `str.strip()`. -/
def stripWs (s : Str) : Str :=
  ((s.dropWhile Char.isWhitespace).reverse.dropWhile Char.isWhitespace).reverse

/-- Python `str.split()` with no argument: whitespace runs, empties dropped. -/
def wordsOf (s : Str) : List Str :=
  (List.splitOnP Char.isWhitespace s).filter (fun w => w ≠ [])

/-- Python `" ".join(ws)`. -/
def joinWords (ws : List Str) : Str := List.intercalate [' '] ws

/-- Statement loop of `condense_conversation_to_memory` (lines 358-368): for
each of the (at most 3) items, skip non-strings and blank strings, derive the
title from the first 8 words, tag the metadata, and feed the statement through
`create_memory`; fresh row ids are drawn from successive values of `nextId`. -/
def condenseLoop (sqrtQ : ℚ → ℚ) (embed : Str → Option Vec) (user : String)
    (attention : Option ℚ) (now : Nat) :
    List MVal → List MemRow → Nat → List MemRow × List MemRow × List LogEntry
  | [], st, _ => ([], st, [])
  | item :: rest, st, nextId =>
    match item with
    | MVal.str s0 =>
      let s := stripWs s0
      if s = [] then condenseLoop sqrtQ embed user attention now rest st nextId
      else
        let title := joinWords ((wordsOf s).take 8)
        let md : Meta := [("source", MVal.str "chat_autosave".toList),
                          ("attention", match attention with
                            | some q => MVal.num q
                            | none => MVal.null)]
        let out := create_memory sqrtQ embed st now nextId user title s (some md)
        let rec0 := condenseLoop sqrtQ embed user attention now rest out.store (nextId + 1)
        (out.row :: rec0.1, rec0.2.1, out.logs ++ rec0.2.2)
    | _ => condenseLoop sqrtQ embed user attention now rest st nextId

/-- Model of `condense_conversation_to_memory` (lines 240-370) downstream of
prompt construction: run the candidate/retry machinery, extract the statement
list permissively from the winning text, create/merge at most 3 memories, and
append one `condensed` log entry carrying the created count.  An error is the
exception re-raised after all candidates fail.  (The source guarantees a
non-empty candidate list: the primary model id defaults to a non-empty
constant.) -/
def condense (provider : Nat → ProviderResp) (jp : Str → Option MVal)
    (sqrtQ : ℚ → ℚ) (embed : Str → Option Vec) (schedule : List ℚ)
    (cands : List String) (st : List MemRow) (now nextId : Nat) (user : String)
    (attention : Option ℚ) : Except Str (List MemRow × List MemRow × List LogEntry) :=
  match (tryCandidates provider schedule cands 0 none).1 with
  | Except.error e => Except.error e
  | Except.ok text =>
    let items := extractItems jp text
    let res := condenseLoop sqrtQ embed user attention now (items.take 3) st nextId
    Except.ok (res.1, res.2.1,
      res.2.2 ++ [⟨some user, none, "condensed", [("count", MVal.num res.1.length)]⟩])

/-- A row of the `user_settings` table. -/
structure SettingsRow where
  owner : String
  autosave_memories : Option Bool

/-- Model of `get_autosave_preference` (lines 374-381): read one row by owner
(`storeFails` models the `except Exception` around the store read); return the
stored flag only when a row exists and the flag is non-null, else the
process-wide default. -/
def get_autosave_preference (dflt : Bool) (st : List SettingsRow)
    (storeFails : Bool) (user : String) : Bool :=
  if storeFails then dflt
  else
    match (st.filter (fun r => r.owner = user)).take 1 with
    | [] => dflt
    | r :: _ =>
      match r.autosave_memories with
      | some b => b
      | none => dflt

/-- Decision made for one dedup candidate: it merges exactly when its stored
embedding is a non-empty list and `_cos_sim` returns a value above `0.9`
(a length-mismatch `ValueError` is caught and skips the candidate). -/
def dedupMatch (sqrtQ : ℚ → ℚ) (new_vec : Vec) (r : RecentRow) : Bool :=
  match r.embedding with
  | some emb =>
    !emb.isEmpty &&
      (match cosSimE sqrtQ new_vec emb with
       | some s => decide ((0.9 : ℚ) < s)
       | none => false)
  | none => false

/-- Default of `PROVIDER_RETRY_SCHEDULE` (line 258). -/
def defaultRetrySchedule : List ℚ := [0, 1, 2, 4, 8, 16]

/-! Concrete inputs used by witnesses and counterexamples.  All embedding
vectors are unit vectors with rational coordinates, so the square-root oracle
can be taken to be the identity function (`sqrt 1 = 1` is the only value the
similarity formula consults on them). -/

/-- A stored row owned by `"u"` with unit embedding `[1, 0]` and a metadata
map carrying a key `"k"`. -/
def wRowA : MemRow :=
  ⟨1, "u", "t".toList, "x".toList, "x".toList, [], some [1, 0],
   [("k", MVal.str "v".toList)], 5, 5⟩

/-- Fresh metadata passed to the create call in witnesses. -/
def wMd : Meta := [("m", MVal.num 7)]

/-- Embedding oracle always returning the unit vector `[1, 0]`. -/
def wEmbedUnit : Str → Option Vec := fun _ => some [1, 0]

/-- Unit vector at rational angle indexed by `m`: `[(m² - 1)/(m² + 1), 2m/(m² + 1)]`. -/
def c2emb (m : Nat) : Vec :=
  [((m : ℚ) * m - 1) / ((m : ℚ) * m + 1), 2 * m / ((m : ℚ) * m + 1)]

/-- Cosine similarity of `c2emb m` against the query `[1, 0]`. -/
def c2sim (m : Nat) : ℚ := ((m : ℚ) * m - 1) / ((m : ℚ) * m + 1)

/-- Row `m` of the retrieval counterexample store: owner `"u"`, embedding
`c2emb m`; row 202 is the least recently updated, all others have
`updated_at = m`. -/
def c2row (m : Nat) : MemRow :=
  ⟨m, "u", [], [], [], [], some (c2emb m), [], 0, if m = 202 then 0 else m⟩

/-- Store of 201 embedded rows for one owner, listed in decreasing similarity
order: rows `m = 202, 201, ..., 2`. -/
def c2store : List MemRow := (List.range 201).map (fun i => c2row (202 - i))

/-- The 200 most-recently-updated rows of `c2store`: everything but row 202. -/
def c2tail : List MemRow := (List.range 200).map (fun j => c2row (201 - j))

/-- Provider trace: five rate-limit errors, then a 400 `not a chat model`
error (so the legacy completions call fires), then success. -/
def c3cexProvider : Nat → ProviderResp := fun i =>
  if i < 5 then ProviderResp.apiStatusErr (some 429) "rate limited".toList
  else if i = 5 then ProviderResp.apiStatusErr (some 400) "This is not a chat model".toList
  else ProviderResp.ok "ok".toList

/-- Settings rows for the autosave-preference witness. -/
def wSettingsRow : SettingsRow := ⟨"u", some false⟩

def wSettingsNull : SettingsRow := ⟨"u", none⟩

/-! Helper lemmas. -/

theorem sumSq_nonneg (v : Vec) : 0 ≤ sumSq v := by
  induction v with
  | nil => simp [sumSq]
  | cons x t ih =>
    have hx : 0 ≤ x * x := mul_self_nonneg x
    simp only [sumSq, List.map_cons, List.sum_cons] at ih ⊢
    linarith

theorem eq_zero_of_sumSq_eq_zero (v : Vec) (h : sumSq v = 0) : ∀ x ∈ v, x = 0 := by
  induction v with
  | nil => simp
  | cons y t ih =>
    have ht : 0 ≤ sumSq t := sumSq_nonneg t
    have hy : 0 ≤ y * y := mul_self_nonneg y
    simp only [sumSq, List.map_cons, List.sum_cons] at h
    have hy0 : y * y = 0 := by
      have : sumSq t = (t.map (fun x => x * x)).sum := rfl
      linarith [this ▸ ht]
    have ht0 : sumSq t = 0 := by
      have : sumSq t = (t.map (fun x => x * x)).sum := rfl
      linarith [this ▸ ht]
    intro x hx
    rcases List.mem_cons.mp hx with rfl | hx2
    · exact mul_self_eq_zero.mp hy0
    · exact ih ht0 x hx2

theorem dot_zero_left (a : Vec) (h : ∀ x ∈ a, x = 0) : ∀ b : Vec, dot a b = 0 := by
  induction a with
  | nil => intro b; simp [dot]
  | cons x t ih =>
    intro b
    cases b with
    | nil => simp [dot]
    | cons y u =>
      have hx : x = 0 := h x (List.mem_cons_self x t)
      have ht := ih (fun z hz => h z (List.mem_cons_of_mem x hz)) u
      simp only [dot, List.zipWith_cons_cons, List.sum_cons] at ht ⊢
      simp [hx, ht]

theorem dot_zero_right (a b : Vec) (h : ∀ x ∈ b, x = 0) : dot a b = 0 := by
  induction a generalizing b with
  | nil => simp [dot]
  | cons x t ih =>
    cases b with
    | nil => simp [dot]
    | cons y u =>
      have hy : y = 0 := h y (List.mem_cons_self y u)
      have hu := ih u (fun z hz => h z (List.mem_cons_of_mem y hz))
      simp only [dot, List.zipWith_cons_cons, List.sum_cons] at hu ⊢
      simp [hy, hu]

/-! Claim theorems. -/

/-- Claim C9: the similarity computed by the memory subsystem (`_cos_sim` for
dedup, reused verbatim by the brute-force ranking through `simVal`) is total
on equal-length vectors, and whenever either vector has zero norm (exactly
when its sum of squares is zero) the result is `0` — the `or 1.0` guard
substitutes denominator `1`, and the dot product vanishes —
never a NaN or a division error. -/
theorem cos_sim_zero_norm (sqrtQ : ℚ → ℚ) (a b : Vec)
    (h : sumSq a = 0 ∨ sumSq b = 0) :
    simVal sqrtQ a b = 0 ∧
    (a.length = b.length → cosSimE sqrtQ a b = some 0) := by
  have hd : dot a b = 0 := by
    rcases h with h | h
    · exact dot_zero_left a (eq_zero_of_sumSq_eq_zero a h) b
    · exact dot_zero_right a b (eq_zero_of_sumSq_eq_zero b h)
  constructor
  · simp [simVal, hd]
  · intro hl
    simp [cosSimE, hl, simVal, hd]

/-- Witness for C9 at the zero vector `[0, 0]` against `[3, 4]`. -/
theorem cos_sim_zero_norm_witness :
    simVal (fun q => q) [0, 0] [3, 4] = 0 ∧
    (([0, 0] : Vec).length = ([3, 4] : Vec).length →
      cosSimE (fun q => q) [0, 0] [3, 4] = some 0) :=
  cos_sim_zero_norm (fun q => q) [0, 0] [3, 4] (Or.inl (by norm_num [sumSq]))

/-- Claim C6: `delete_memory` filters on both id and owner, always returns
(logging action `deleted`), is idempotent, and leaves the store unchanged when
no row of that owner has that id (non-existent, already deleted, or owned by
someone else). -/
theorem delete_memory_idempotent (st : List MemRow) (user : String) (mid : Nat) :
    (delete_memory st user mid).2 = [⟨some user, some mid, "deleted", []⟩] ∧
    delete_memory (delete_memory st user mid).1 user mid = delete_memory st user mid ∧
    ((∀ r ∈ st, ¬(r.id = mid ∧ r.owner = user)) → (delete_memory st user mid).1 = st) := by
  refine ⟨rfl, ?_, ?_⟩
  · unfold delete_memory
    simp [List.filter_filter]
  · intro h
    unfold delete_memory
    refine List.filter_eq_self.mpr ?_
    intro a ha
    have := h a ha
    simp only [decide_eq_true_eq]
    tauto

/-- Witness for C6: deleting an id/owner pair that matches no row. -/
theorem delete_memory_idempotent_witness :
    (delete_memory [wRowA] "z" 9).2 = [⟨some "z", some 9, "deleted", []⟩] ∧
    (delete_memory [wRowA] "z" 9).1 = [wRowA] :=
  ⟨(delete_memory_idempotent [wRowA] "z" 9).1,
   (delete_memory_idempotent [wRowA] "z" 9).2.2 (by
     intro r hr
     rcases List.mem_singleton.mp hr with rfl
     simp [wRowA])⟩

/-- Claim C10: `get_autosave_preference` returns the configured default when
the store read raises, when no row exists for the owner, or when the stored
flag is null; it returns a non-default value only by reading a row with a
non-null flag. -/
theorem autosave_pref_default (dflt : Bool) (st : List SettingsRow) (fails : Bool)
    (user : String) :
    get_autosave_preference dflt st true user = dflt ∧
    (st.filter (fun r => r.owner = user) = [] →
      get_autosave_preference dflt st fails user = dflt) ∧
    (∀ r t, st.filter (fun r2 => r2.owner = user) = r :: t →
      r.autosave_memories = none →
      get_autosave_preference dflt st fails user = dflt) ∧
    (∀ r t b, st.filter (fun r2 => r2.owner = user) = r :: t →
      r.autosave_memories = some b →
      get_autosave_preference dflt st false user = b) := by
  refine ⟨rfl, ?_, ?_, ?_⟩
  · intro h
    cases fails <;> simp [get_autosave_preference, h]
  · intro r t h hn
    cases fails <;> simp [get_autosave_preference, h, hn]
  · intro r t b h hb
    simp [get_autosave_preference, h, hb]

/-- Witness for C10: store failure, missing row, null flag, and a stored
`false` under default `true`. -/
theorem autosave_pref_default_witness :
    get_autosave_preference true [wSettingsRow] true "u" = true ∧
    get_autosave_preference true [] false "u" = true ∧
    get_autosave_preference true [wSettingsNull] false "u" = true ∧
    get_autosave_preference true [wSettingsRow] false "u" = false :=
  ⟨(autosave_pref_default true [wSettingsRow] true "u").1,
   (autosave_pref_default true [] false "u").2.1 rfl,
   (autosave_pref_default true [wSettingsNull] false "u").2.2.1 wSettingsNull [] rfl rfl,
   (autosave_pref_default true [wSettingsRow] false "u").2.2.2 wSettingsRow [] false rfl rfl⟩

theorem sortKeyDesc_pairwise {α : Type} (key : α → Nat) (l : List α) :
    (sortKeyDesc key l).Pairwise (fun a b => key b ≤ key a) := by
  haveI : IsTotal α (fun a b => key b ≤ key a) := ⟨fun a b => le_total (key b) (key a)⟩
  haveI : IsTrans α (fun a b => key b ≤ key a) :=
    ⟨fun _ _ _ h1 h2 => le_trans h2 h1⟩
  exact List.sorted_insertionSort _ l

theorem sortKeyDesc_perm {α : Type} (key : α → Nat) (l : List α) :
    (sortKeyDesc key l).Perm l :=
  List.perm_insertionSort _ l

/-- Counterexample for C8 as stated: the supabase call is
`range(offset, offset + max(limit - 1, 0))` with inclusive bounds, so
`limit = 0` still returns one row — not "at most limit rows". -/
theorem list_memories_limit_zero_cex :
    list_memories [wRowA] "u" 0 0 = [wRowA] ∧
    ¬((list_memories [wRowA] "u" 0 0).length ≤ 0) := by
  exact ⟨rfl, by decide⟩

/-- Claim C8 (amended): `list_memories` returns the owner's rows ordered by
`created_at` descending, skipping `offset` rows, and returning at most
`max limit 1` rows (the store's inclusive range makes `limit = 0` behave like
`limit = 1`). -/
theorem list_memories_pagination (st : List MemRow) (user : String)
    (limit offset : Nat) :
    list_memories st user limit offset =
      ((sortKeyDesc (fun r => r.created_at)
        (st.filter (fun r => r.owner = user))).drop offset).take (max limit 1) ∧
    (list_memories st user limit offset).length ≤ max limit 1 ∧
    (list_memories st user limit offset).Pairwise
      (fun a b => b.created_at ≤ a.created_at) ∧
    (∀ r ∈ list_memories st user limit offset, r.owner = user) := by
  have hcount : ((max ((limit : ℤ) - 1) 0).toNat + 1) = max limit 1 := by
    rcases limit with _ | n
    · rfl
    · simp only [Nat.cast_succ]
      omega
  have h1 : list_memories st user limit offset =
      ((sortKeyDesc (fun r => r.created_at)
        (st.filter (fun r => r.owner = user))).drop offset).take (max limit 1) := by
    unfold list_memories
    rw [hcount]
  refine ⟨h1, ?_, ?_, ?_⟩
  · rw [h1]
    exact List.length_take_le _ _
  · rw [h1]
    exact (sortKeyDesc_pairwise (fun r : MemRow => r.created_at) _).sublist
      ((List.take_sublist _ _).trans (List.drop_sublist _ _))
  · intro r hr
    rw [h1] at hr
    have hr2 := List.mem_of_mem_drop (List.mem_of_mem_take hr)
    have hr3 := (sortKeyDesc_perm (fun r : MemRow => r.created_at) _).mem_iff.mp hr2
    simpa using (List.mem_filter.mp hr3).2

/-- Witness for C8 at a one-row store with `limit = 2`. -/
theorem list_memories_pagination_witness :
    list_memories [wRowA] "u" 2 0 = [wRowA] ∧
    (list_memories [wRowA] "u" 2 0).length ≤ max 2 1 ∧
    wRowA.owner = "u" := by
  have h := list_memories_pagination [wRowA] "u" 2 0
  have hEq : list_memories [wRowA] "u" 2 0 = [wRowA] := by
    rw [h.1]; rfl
  exact ⟨hEq, h.2.1, h.2.2.2 wRowA (by rw [hEq]; exact List.mem_singleton.mpr rfl)⟩

/-- Claim C5: when the embedding call fails, `create_memory` still succeeds:
the dedup scan is skipped (no merge regardless of the stored rows), the
inserted row has no embedding and no `embedding_copy` in its metadata, and
such a row is passed over both by future dedup scans and by the fallback
retrieval scoring. -/
theorem create_memory_embed_failure (sqrtQ : ℚ → ℚ) (embed : Str → Option Vec)
    (st : List MemRow) (now newId : Nat) (user : String) (title memory_text : Str)
    (md : Meta) (hE : embed memory_text = none)
    (hCopy : metaLookup "embedding_copy" md = none) :
    create_memory sqrtQ embed st now newId user title memory_text (some md) =
      ⟨st ++ [payloadRow now newId user title memory_text none md],
       payloadRow now newId user title memory_text none md, false,
       [⟨some user, some newId, "created", []⟩]⟩ ∧
    (payloadRow now newId user title memory_text none md).embedding = none ∧
    (payloadRow now newId user title memory_text none md).metadata = md ∧
    (∀ sq2 st2 user2 md2 nv now2 rest,
      dedupLoop sq2 st2 user2 md2 nv now2
        (projectRecent (payloadRow now newId user title memory_text none md) :: rest) =
      dedupLoop sq2 st2 user2 md2 nv now2 rest) ∧
    (∀ sq2 q, scoreRow sq2 q (payloadRow now newId user title memory_text none md) =
      ScoreRes.skipped) := by
  refine ⟨?_, rfl, rfl, ?_, ?_⟩
  · unfold create_memory
    rw [hE]
    rfl
  · intro sq2 st2 user2 md2 nv now2 rest
    rfl
  · intro sq2 q
    unfold scoreRow fallbackEmb payloadRow
    simp [hCopy, scoreEmbVal, fallbackEmbVal]

/-- Witness for C5: a failing embedder over a non-empty store. -/
theorem create_memory_embed_failure_witness :
    create_memory (fun q => q) (fun _ => none) [wRowA] 9 3 "u" "t".toList "x".toList
      (some wMd) =
      ⟨[wRowA] ++ [payloadRow 9 3 "u" "t".toList "x".toList none wMd],
       payloadRow 9 3 "u" "t".toList "x".toList none wMd, false,
       [⟨some "u", some 3, "created", []⟩]⟩ ∧
    scoreRow (fun q => q) [1, 0] (payloadRow 9 3 "u" "t".toList "x".toList none wMd) =
      ScoreRes.skipped := by
  have h := create_memory_embed_failure (fun q => q) (fun _ => none) [wRowA] 9 3 "u"
    "t".toList "x".toList wMd rfl rfl
  exact ⟨h.1, h.2.2.2.2 (fun q => q) [1, 0]⟩

theorem dedupLoop_merged (sqrtQ : ℚ → ℚ) (st : List MemRow) (user : String)
    (metadata : Meta) (new_vec : Vec) (now : Nat) :
    ∀ l out, dedupLoop sqrtQ st user metadata new_vec now l = some out →
      out.merged = true := by
  intro l
  induction l with
  | nil =>
    intro out h
    simp [dedupLoop] at h
  | cons r rest ih =>
    intro out h
    obtain ⟨rid, rmt, remb, rupd⟩ := r
    rcases remb with _ | emb
    · simp only [dedupLoop] at h
      exact ih out h
    · simp only [dedupLoop] at h
      split at h
      · exact ih out h
      · split at h
        · exact ih out h
        · split at h
          · cases h
            rfl
          · exact ih out h

/-- Claim C7: on the insert path (no dedup merge) the stored title is the
input truncated to 100 characters and the stored text the input truncated to
600; in particular a 200-character title and a 1000-character body are stored
with lengths exactly 100 and 600. -/
theorem create_memory_truncation (sqrtQ : ℚ → ℚ) (embed : Str → Option Vec)
    (st : List MemRow) (now newId : Nat) (user : String) (title memory_text : Str)
    (md? : Option Meta)
    (hNoMerge : (create_memory sqrtQ embed st now newId user title memory_text md?).merged
      = false) :
    (create_memory sqrtQ embed st now newId user title memory_text md?).row.title =
      title.take 100 ∧
    (create_memory sqrtQ embed st now newId user title memory_text md?).row.memory_text =
      memory_text.take 600 ∧
    (title.length = 200 →
      (create_memory sqrtQ embed st now newId user title memory_text md?).row.title.length
        = 100) ∧
    (memory_text.length = 1000 →
      (create_memory sqrtQ embed st now newId user title
        memory_text md?).row.memory_text.length = 600) := by
  have hrow : (create_memory sqrtQ embed st now newId user title memory_text md?).row =
      payloadRow now newId user title memory_text (embed memory_text) (md?.getD []) := by
    rcases hv : embed memory_text with _ | v
    · unfold create_memory
      rw [hv]
    · unfold create_memory
      rw [hv]
      dsimp only
      rcases hd : dedupLoop sqrtQ st user (md?.getD []) v now (recentForDedup st user)
        with _ | out
      · rfl
      · exfalso
        have hm := dedupLoop_merged sqrtQ st user (md?.getD []) v now _ out hd
        have hcm : create_memory sqrtQ embed st now newId user title memory_text md? = out := by
          unfold create_memory
          rw [hv]
          dsimp only
          rw [hd]
        rw [hcm] at hNoMerge
        rw [hNoMerge] at hm
        exact Bool.false_ne_true hm
  rw [hrow]
  refine ⟨rfl, rfl, ?_, ?_⟩
  · intro h
    simp [payloadRow, List.length_take, h]
  · intro h
    simp [payloadRow, List.length_take, h]

/-- Witness for C7: 200-character title, 1000-character body, failing
embedder (hence trivially no merge), empty store. -/
theorem create_memory_truncation_witness :
    (create_memory (fun q => q) (fun _ => none) [] 9 3 "u" (List.replicate 200 'a')
      (List.replicate 1000 'b') (some [])).row.title.length = 100 ∧
    (create_memory (fun q => q) (fun _ => none) [] 9 3 "u" (List.replicate 200 'a')
      (List.replicate 1000 'b') (some [])).row.memory_text.length = 600 := by
  have h := create_memory_truncation (fun q => q) (fun _ => none) [] 9 3 "u"
    (List.replicate 200 'a') (List.replicate 1000 'b') (some []) rfl
  exact ⟨h.2.2.1 (by simp), h.2.2.2 (by simp)⟩

/-- Claim C4: `condense` never propagates a JSON-parse failure: with a
successful generation returning the text `not json at all` (not valid JSON
and containing no bracket pair), the statement list degrades to empty and the
call returns zero created memories, an unchanged store, and a single
`condensed` log entry with count 0. -/
theorem condense_parse_total (provider : Nat → ProviderResp)
    (jp : Str → Option MVal) (sqrtQ : ℚ → ℚ) (embed : Str → Option Vec) (d : ℚ)
    (rest : List ℚ) (c : String) (crest : List String) (st : List MemRow)
    (now nextId : Nat) (user : String) (attention : Option ℚ)
    (hP : provider 0 = ProviderResp.ok "not json at all".toList)
    (hJ : jp "not json at all".toList = none) :
    condense provider jp sqrtQ embed (d :: rest) (c :: crest) st now nextId user
      attention =
      Except.ok ([], st, [⟨some user, none, "condensed", [("count", MVal.num 0)]⟩]) := by
  have hcall : (callProviderLoop provider (d :: rest) 0 none) =
      (Except.ok "not json at all".toList, 1, attemptEvents d) := by
    unfold callProviderLoop
    rw [hP]
    rfl
  have htry : (tryCandidates provider (d :: rest) (c :: crest) 0 none).1 =
      Except.ok "not json at all".toList := by
    unfold tryCandidates
    rw [hcall]
  have hfind : strFindChar "not json at all".toList '[' = none := by decide
  have hitems : extractItems jp "not json at all".toList = [] := by
    unfold extractItems
    rw [hJ, hfind]
  unfold condense
  rw [htry]
  dsimp only
  rw [hitems]
  simp [condenseLoop]

theorem dedupLoop_eq_find (sqrtQ : ℚ → ℚ) (st : List MemRow) (user : String)
    (metadata : Meta) (new_vec : Vec) (now : Nat) :
    ∀ l : List RecentRow,
      dedupLoop sqrtQ st user metadata new_vec now l =
        match l.find? (dedupMatch sqrtQ new_vec) with
        | some r =>
          some ⟨dedupUpdate now metadata r.id user st,
            ((dedupUpdate now metadata r.id user st).find?
              (fun x => x.id = r.id)).getD default, true,
            [⟨some user, some r.id, "updated", [("reason", MVal.str "dedup".toList)]⟩]⟩
        | none => none := by
  intro l
  induction l with
  | nil => rfl
  | cons r rest ih =>
    obtain ⟨rid, rmt, remb, rupd⟩ := r
    rcases remb with _ | emb
    · rw [List.find?_cons_of_neg _ (by simp [dedupMatch])]
      exact ih
    · by_cases hemp : emb = []
      · subst hemp
        rw [List.find?_cons_of_neg _ (by simp [dedupMatch])]
        exact ih
      · simp only [dedupLoop]
        rw [if_neg hemp]
        rcases hcs : cosSimE sqrtQ new_vec emb with _ | s
        · rw [List.find?_cons_of_neg _ (by simp [dedupMatch, hcs])]
          exact ih
        · dsimp only
          by_cases hgt : (0.9 : ℚ) < s
          · rw [if_pos hgt,
              List.find?_cons_of_pos _ (by simp [dedupMatch, hcs, hemp, hgt])]
            rfl
          · rw [if_neg hgt,
              List.find?_cons_of_neg _ (by simp [dedupMatch, hcs, hemp, hgt])]
            exact ih

theorem recentForDedup_mem (st : List MemRow) (user : String) (r : RecentRow)
    (hr : r ∈ recentForDedup st user) :
    ∃ x ∈ st, x.owner = user ∧ projectRecent x = r := by
  unfold recentForDedup at hr
  rcases List.mem_map.mp hr with ⟨x, hx, hpx⟩
  have hx2 := List.mem_of_mem_take hx
  have hx3 := (sortKeyDesc_perm (fun r2 : MemRow => r2.updated_at) _).mem_iff.mp hx2
  exact ⟨x, (List.mem_filter.mp hx3).1, by simpa using (List.mem_filter.mp hx3).2, hpx⟩

/-- Claim C1 (amended): with a successful embedding, `create_memory` scans the
owner's 50 most-recently-updated rows in that order and merges into the FIRST
candidate whose stored embedding is a non-empty list of the query's dimension
with similarity above 0.9 (the `find?` below): its `updated_at` becomes `now`,
its metadata is REPLACED by a fresh map holding only a `references` list with
the new call's metadata (the dedup select does not fetch the candidate's
metadata, so the merge overwrites rather than extends it), an `updated` entry
with reason `dedup` is logged, the re-fetched row is returned, and nothing is
inserted; when no candidate matches, a fresh row is inserted and `created` is
logged. -/
theorem create_memory_first_match_merge (sqrtQ : ℚ → ℚ) (embed : Str → Option Vec)
    (st : List MemRow) (now newId : Nat) (user : String) (title memory_text : Str)
    (md : Meta) (new_vec : Vec)
    (hE : embed memory_text = some new_vec)
    (hU : (st.map (fun r => r.id)).Nodup) :
    (create_memory sqrtQ embed st now newId user title memory_text (some md) =
      match (recentForDedup st user).find? (dedupMatch sqrtQ new_vec) with
      | some r =>
        ⟨dedupUpdate now md r.id user st,
          ((dedupUpdate now md r.id user st).find? (fun x => x.id = r.id)).getD default,
          true,
          [⟨some user, some r.id, "updated", [("reason", MVal.str "dedup".toList)]⟩]⟩
      | none =>
        ⟨st ++ [payloadRow now newId user title memory_text (some new_vec) md],
         payloadRow now newId user title memory_text (some new_vec) md, false,
         [⟨some user, some newId, "created", []⟩]⟩) ∧
    (∀ r, (recentForDedup st user).find? (dedupMatch sqrtQ new_vec) = some r →
      (create_memory sqrtQ embed st now newId user title memory_text (some md)).row.id
        = r.id ∧
      (create_memory sqrtQ embed st now newId user title memory_text
        (some md)).row.updated_at = now ∧
      (create_memory sqrtQ embed st now newId user title memory_text
        (some md)).row.metadata = mergedMeta md ∧
      (create_memory sqrtQ embed st now newId user title memory_text
        (some md)).store.length = st.length ∧
      (create_memory sqrtQ embed st now newId user title memory_text
        (some md)).merged = true) := by
  have h1 : create_memory sqrtQ embed st now newId user title memory_text (some md) =
      match (recentForDedup st user).find? (dedupMatch sqrtQ new_vec) with
      | some r =>
        ⟨dedupUpdate now md r.id user st,
          ((dedupUpdate now md r.id user st).find? (fun x => x.id = r.id)).getD default,
          true,
          [⟨some user, some r.id, "updated", [("reason", MVal.str "dedup".toList)]⟩]⟩
      | none =>
        ⟨st ++ [payloadRow now newId user title memory_text (some new_vec) md],
         payloadRow now newId user title memory_text (some new_vec) md, false,
         [⟨some user, some newId, "created", []⟩]⟩ := by
    unfold create_memory
    rw [hE]
    dsimp only
    simp only [Option.getD_some]
    rw [dedupLoop_eq_find sqrtQ st user md new_vec now]
    rcases hf : (recentForDedup st user).find? (dedupMatch sqrtQ new_vec) with _ | r
    · rfl
    · rfl
  refine ⟨h1, ?_⟩
  intro r hf
  obtain ⟨x, hxst, hxo, hpx⟩ := recentForDedup_mem st user r
    (List.mem_of_find?_eq_some hf)
  have hid : x.id = r.id := by rw [← hpx]; rfl
  have hfx : st.find? (fun y => y.id = r.id) = some x := by
    rcases hfs : st.find? (fun y => y.id = r.id) with _ | y
    · exfalso
      have := List.find?_eq_none.mp hfs x hxst
      simp [hid] at this
    · have hy := List.find?_some hfs
      have hym := List.mem_of_find?_eq_some hfs
      have hyx : y = x := by
        refine List.inj_on_of_nodup_map hU hym hxst ?_
        have h2 : y.id = r.id := by simpa using hy
        rw [h2, hid]
      rw [hyx] at hfs
      exact hfs
  have hout : create_memory sqrtQ embed st now newId user title memory_text (some md) =
      ⟨dedupUpdate now md r.id user st, mergedRow now md x, true,
        [⟨some user, some r.id, "updated", [("reason", MVal.str "dedup".toList)]⟩]⟩ := by
    rw [h1, hf]
    dsimp only
    have hmapfind : (dedupUpdate now md r.id user st).find? (fun y => y.id = r.id) =
        some (mergedRow now md x) := by
      unfold dedupUpdate
      rw [List.find?_map _ _]
      have hp : ((fun y : MemRow => decide (y.id = r.id)) ∘
          (fun y => if y.id = r.id ∧ y.owner = user then mergedRow now md y else y)) =
          (fun y : MemRow => decide (y.id = r.id)) := by
        funext y
        by_cases hc : y.id = r.id ∧ y.owner = user
        · simp [hc, hc.1, mergedRow]
        · simp [hc]
      rw [hp, hfx]
      have hcx : x.id = r.id ∧ x.owner = user := ⟨hid, hxo⟩
      simp [hcx]
    rw [hmapfind]
    rfl
  rw [hout]
  refine ⟨by simp [mergedRow, ← hid], rfl, rfl, by simp [dedupUpdate], rfl⟩

theorem callProviderLoop_count (provider : Nat → ProviderResp) :
    ∀ (schedule : List ℚ) (n : Nat) (last : Option Str),
      (callProviderLoop provider schedule n last).2.2.count CallEvent.chatCall ≤
        schedule.length ∧
      (callProviderLoop provider schedule n last).2.2.count CallEvent.complCall ≤ 1 := by
  have hatt : ∀ d : ℚ, (attemptEvents d).count CallEvent.chatCall = 1 ∧
      (attemptEvents d).count CallEvent.complCall = 0 := by
    intro d
    unfold attemptEvents
    split <;> simp [List.count_append, List.count_singleton, List.count_cons]
  intro schedule
  induction schedule with
  | nil =>
    intro n last
    rcases last with _ | m <;> simp [callProviderLoop]
  | cons d rest ih =>
    intro n last
    simp only [callProviderLoop]
    rcases hp : provider n with t | ⟨status, msg⟩ | m
    · simp only [callProviderStep]
      simp [hatt d]
    · simp only [callProviderStep]
      by_cases htr : status = some 429 ∨ status = some 502 ∨ status = some 503
      · rw [if_pos htr]
        obtain ⟨iha, ihb⟩ := ih (n + 1) (some msg)
        constructor
        · simp only [List.count_append, (hatt d).1, List.length_cons]
          omega
        · simp only [List.count_append, (hatt d).2, List.length_cons]
          omega
      · rw [if_neg htr]
        by_cases hnc : notChatErr status msg = true
        · rw [if_pos hnc]
          rcases provider (n + 1) with t2 | ⟨s2, m2⟩ | m2 <;>
            simp only [completionsFallback] <;>
            simp [List.count_append, (hatt d).1, (hatt d).2, List.count_singleton,
              Nat.succ_le_succ, Nat.zero_le]
        · rw [if_neg hnc]
          simp [(hatt d).1, (hatt d).2]
    · simp only [callProviderStep]
      simp [hatt d]

theorem callProviderLoop_transient (provider : Nat → ProviderResp)
    (statuses : Nat → Int) (msgs : Nat → Str)
    (hp : ∀ i, provider i = ProviderResp.apiStatusErr (some (statuses i)) (msgs i))
    (hs : ∀ i, statuses i = 429 ∨ statuses i = 502 ∨ statuses i = 503) :
    ∀ (schedule : List ℚ) (n : Nat) (last : Option Str),
      (∃ e, (callProviderLoop provider schedule n last).1 = Except.error e) ∧
      (callProviderLoop provider schedule n last).2.1 = n + schedule.length ∧
      (callProviderLoop provider schedule n last).2.2 = schedule.flatMap attemptEvents := by
  intro schedule
  induction schedule with
  | nil =>
    intro n last
    rcases last with _ | m <;> exact ⟨⟨_, rfl⟩, rfl, rfl⟩
  | cons d rest ih =>
    intro n last
    have htr : some (statuses n) = some 429 ∨ some (statuses n) = some 502 ∨
        some (statuses n) = some 503 := by
      rcases hs n with h | h | h <;> simp [h]
    simp only [callProviderLoop]
    rw [hp n]
    simp only [callProviderStep]
    rw [if_pos htr]
    obtain ⟨⟨e, ihe⟩, ihn, ihev⟩ := ih (n + 1) (some (msgs n))
    refine ⟨⟨e, ihe⟩, ?_, ?_⟩
    · simp only [ihn, List.length_cons]
      omega
    · simp only [ihev, List.flatMap_cons]

theorem callProviderLoop_never_ok (provider : Nat → ProviderResp)
    (hno : ∀ i t, provider i ≠ ProviderResp.ok t) :
    ∀ (schedule : List ℚ) (n : Nat) (last : Option Str),
      ∃ e, (callProviderLoop provider schedule n last).1 = Except.error e := by
  intro schedule
  induction schedule with
  | nil =>
    intro n last
    rcases last with _ | m <;> exact ⟨_, rfl⟩
  | cons d rest ih =>
    intro n last
    simp only [callProviderLoop]
    rcases hpn : provider n with t | ⟨status, msg⟩ | m
    · exact absurd hpn (hno n t)
    · simp only [callProviderStep]
      by_cases htr : status = some 429 ∨ status = some 502 ∨ status = some 503
      · rw [if_pos htr]
        obtain ⟨e, he⟩ := ih (n + 1) (some msg)
        exact ⟨e, he⟩
      · rw [if_neg htr]
        by_cases hnc : notChatErr status msg = true
        · rw [if_pos hnc]
          rcases hpn2 : provider (n + 1) with t2 | ⟨s2, m2⟩ | m2
          · exact absurd hpn2 (hno (n + 1) t2)
          · exact ⟨_, rfl⟩
          · exact ⟨_, rfl⟩
        · rw [if_neg hnc]
          exact ⟨_, rfl⟩
    · exact ⟨_, rfl⟩

theorem tryCandidates_never_ok (provider : Nat → ProviderResp) (schedule : List ℚ)
    (hno : ∀ i t, provider i ≠ ProviderResp.ok t) :
    ∀ (cands : List String) (n : Nat) (e0 : Str),
      ∃ e, (tryCandidates provider schedule cands n (some e0)).1 = Except.error e := by
  intro cands
  induction cands with
  | nil =>
    intro n e0
    exact ⟨e0, rfl⟩
  | cons c rest ih =>
    intro n e0
    obtain ⟨e1, he1⟩ := callProviderLoop_never_ok provider hno schedule n none
    simp only [tryCandidates]
    rw [he1]
    exact ih _ e1

/-- Claim C3 (amended): per model candidate, `_call_provider` makes at most
`len(schedule)` chat-completions calls PLUS at most one legacy completions
call (fired by a 400 `not a chat model` response), so up to `len(schedule)+1`
generation calls in total — not `len(schedule)` as stated; a transient
response (429/502/503) consumes one retry slot of the same model, with the
scheduled delay slept before each attempt; any other error aborts the
candidate; the first candidate to succeed wins and later candidates make no
calls; if every call fails, the loop and `condense` surface a single error. -/
theorem provider_retry_fallback_policy :
    (∀ (provider : Nat → ProviderResp) (schedule : List ℚ) (n : Nat) (last : Option Str),
      (callProviderLoop provider schedule n last).2.2.count CallEvent.chatCall ≤
        schedule.length ∧
      (callProviderLoop provider schedule n last).2.2.count CallEvent.complCall ≤ 1) ∧
    (∀ (provider : Nat → ProviderResp) (schedule : List ℚ) (n : Nat)
      (statuses : Nat → Int) (msgs : Nat → Str),
      (∀ i, provider i = ProviderResp.apiStatusErr (some (statuses i)) (msgs i)) →
      (∀ i, statuses i = 429 ∨ statuses i = 502 ∨ statuses i = 503) →
      ∃ e, callProviderLoop provider schedule n none =
        (Except.error e, n + schedule.length, schedule.flatMap attemptEvents)) ∧
    (∀ (provider : Nat → ProviderResp) (schedule : List ℚ) (mid : String)
      (rest : List String) (n : Nat) (last : Option Str) (t : Str),
      (callProviderLoop provider schedule n none).1 = Except.ok t →
      tryCandidates provider schedule (mid :: rest) n last =
        (Except.ok t, (callProviderLoop provider schedule n none).2.1,
          [(callProviderLoop provider schedule n none).2.2])) ∧
    (∀ (provider : Nat → ProviderResp) (schedule : List ℚ) (mid : String)
      (rest : List String) (n : Nat) (last : Option Str) (e : Str),
      (callProviderLoop provider schedule n none).1 = Except.error e →
      (tryCandidates provider schedule (mid :: rest) n last).1 =
        (tryCandidates provider schedule rest
          (callProviderLoop provider schedule n none).2.1 (some e)).1) ∧
    (∀ (provider : Nat → ProviderResp) (schedule : List ℚ) (cands : List String)
      (n : Nat), cands ≠ [] → (∀ i t, provider i ≠ ProviderResp.ok t) →
      ∃ e, (tryCandidates provider schedule cands n none).1 = Except.error e) ∧
    (∀ (provider : Nat → ProviderResp) (jp : Str → Option MVal) (sqrtQ : ℚ → ℚ)
      (embed : Str → Option Vec) (schedule : List ℚ) (cands : List String)
      (st : List MemRow) (now nextId : Nat) (user : String) (attention : Option ℚ)
      (e : Str),
      (tryCandidates provider schedule cands 0 none).1 = Except.error e →
      condense provider jp sqrtQ embed schedule cands st now nextId user attention =
        Except.error e) := by
  refine ⟨callProviderLoop_count, ?_, ?_, ?_, ?_, ?_⟩
  · intro provider schedule n statuses msgs hp hs
    obtain ⟨⟨e, he⟩, hn, hev⟩ :=
      callProviderLoop_transient provider statuses msgs hp hs schedule n none
    refine ⟨e, ?_⟩
    have : callProviderLoop provider schedule n none =
        ((callProviderLoop provider schedule n none).1,
         (callProviderLoop provider schedule n none).2.1,
         (callProviderLoop provider schedule n none).2.2) := rfl
    rw [this, he, hn, hev]
  · intro provider schedule mid rest n last t hok
    simp only [tryCandidates]
    rw [hok]
  · intro provider schedule mid rest n last e herr
    simp only [tryCandidates]
    rw [herr]
  · intro provider schedule cands n hne hno
    rcases cands with _ | ⟨c, rest⟩
    · exact absurd rfl hne
    · obtain ⟨e1, he1⟩ := callProviderLoop_never_ok provider hno schedule n none
      simp only [tryCandidates]
      rw [he1]
      exact tryCandidates_never_ok provider schedule hno rest _ e1
  · intro provider jp sqrtQ embed schedule cands st now nextId user attention e herr
    unfold condense
    rw [herr]

/-- Witness for C3: each conjunct of the policy theorem applied at a concrete
provider trace and schedule. -/
theorem provider_retry_fallback_policy_witness :
    ((callProviderLoop (fun _ => ProviderResp.ok "y".toList) [0] 0 none).2.2.count
      CallEvent.chatCall ≤ 1) ∧
    (∃ e, callProviderLoop (fun _ => ProviderResp.apiStatusErr (some 429) []) [0, 1] 0
      none = (Except.error e, 0 + 2, [0, 1].flatMap attemptEvents)) ∧
    tryCandidates (fun _ => ProviderResp.ok "y".toList) [0] ["m1", "m2"] 0 none =
      (Except.ok "y".toList, 1, [[CallEvent.chatCall]]) ∧
    (tryCandidates (fun _ => ProviderResp.otherErr "boom".toList) [0] ["m1", "m2"] 0
      none).1 =
      (tryCandidates (fun _ => ProviderResp.otherErr "boom".toList) [0] ["m2"] 1
        (some "boom".toList)).1 ∧
    (∃ e, (tryCandidates (fun _ => ProviderResp.otherErr "boom".toList) [0] ["m1"] 0
      none).1 = Except.error e) ∧
    condense (fun _ => ProviderResp.otherErr "boom".toList) (fun _ => none)
      (fun q => q) (fun _ => none) [0] ["m1"] [] 7 1 "u" none =
      Except.error "boom".toList := by
  refine ⟨?_, ?_, ?_, ?_, ?_, ?_⟩
  · exact ((provider_retry_fallback_policy.1 (fun _ => ProviderResp.ok "y".toList)
      [0] 0 none).1).trans (by norm_num) |>.trans (le_refl 1) |> fun h => h
  · exact provider_retry_fallback_policy.2.1 (fun _ => ProviderResp.apiStatusErr
      (some 429) []) [0, 1] 0 (fun _ => 429) (fun _ => []) (fun _ => rfl)
      (fun _ => Or.inl rfl)
  · have h := provider_retry_fallback_policy.2.2.1
      (fun _ => ProviderResp.ok "y".toList) [0] "m1" ["m2"] 0 none "y".toList rfl
    exact h.trans (by rfl)
  · exact provider_retry_fallback_policy.2.2.2.1
      (fun _ => ProviderResp.otherErr "boom".toList) [0] "m1" ["m2"] 0 none
      "boom".toList rfl
  · exact provider_retry_fallback_policy.2.2.2.2.1
      (fun _ => ProviderResp.otherErr "boom".toList) [0] ["m1"] 0 (by simp)
      (fun i t h => ProviderResp.noConfusion h)
  · exact provider_retry_fallback_policy.2.2.2.2.2
      (fun _ => ProviderResp.otherErr "boom".toList) (fun _ => none) (fun q => q)
      (fun _ => none) [0] ["m1"] [] 7 1 "u" none "boom".toList rfl

theorem sortRatKeyDesc_pairwise {α : Type} (key : α → ℚ) (l : List α) :
    (sortRatKeyDesc key l).Pairwise (fun a b => key b ≤ key a) := by
  haveI : IsTotal α (fun a b => key b ≤ key a) := ⟨fun a b => le_total (key b) (key a)⟩
  haveI : IsTrans α (fun a b => key b ≤ key a) :=
    ⟨fun _ _ _ h1 h2 => le_trans h2 h1⟩
  exact List.sorted_insertionSort _ l

theorem sortRatKeyDesc_perm {α : Type} (key : α → ℚ) (l : List α) :
    (sortRatKeyDesc key l).Perm l :=
  List.perm_insertionSort _ l

theorem sortRatKeyDesc_sorted_eq {α : Type} (key : α → ℚ) (l : List α)
    (h : l.Pairwise (fun a b => key b ≤ key a)) : sortRatKeyDesc key l = l := by
  haveI : IsTotal α (fun a b => key b ≤ key a) := ⟨fun a b => le_total (key b) (key a)⟩
  haveI : IsTrans α (fun a b => key b ≤ key a) :=
    ⟨fun _ _ _ h1 h2 => le_trans h2 h1⟩
  exact List.Sorted.insertionSort_eq h

theorem sortKeyDesc_sorted_eq {α : Type} (key : α → Nat) (l : List α)
    (h : l.Pairwise (fun a b => key b ≤ key a)) : sortKeyDesc key l = l := by
  haveI : IsTotal α (fun a b => key b ≤ key a) := ⟨fun a b => le_total (key b) (key a)⟩
  haveI : IsTrans α (fun a b => key b ≤ key a) :=
    ⟨fun _ _ _ h1 h2 => le_trans h2 h1⟩
  exact List.Sorted.insertionSort_eq h

theorem toVecM_map_num : ∀ v : Vec, toVecM (v.map MVal.num) = some v := by
  intro v
  induction v with
  | nil => rfl
  | cons x t ih => simp [toVecM, List.map_cons, numOf, ih, consNum, consVec]

/-- Two lists sorted descending by a key that is duplicate-free on them are
equal whenever they are permutations of each other. -/
theorem eq_of_perm_sorted_key {α : Type} (key : α → ℚ) :
    ∀ l1 l2 : List α, l1.Perm l2 →
      l1.Pairwise (fun a b => key b ≤ key a) →
      l2.Pairwise (fun a b => key b ≤ key a) →
      (l1.map key).Nodup → l1 = l2 := by
  intro l1
  induction l1 with
  | nil =>
    intro l2 hp _ _ _
    exact hp.nil_eq
  | cons a t ih =>
    intro l2 hp hs1 hs2 hnd
    rcases l2 with _ | ⟨b, u⟩
    · exact absurd hp.eq_nil (List.cons_ne_nil a t)
    · have hnd2 : ¬ key a ∈ t.map key ∧ (t.map key).Nodup := by
        rw [List.map_cons] at hnd
        exact List.nodup_cons.mp hnd
      have hainl2 : a ∈ b :: u := hp.mem_iff.mp (List.mem_cons_self a t)
      have hbinl1 : b ∈ a :: t := hp.symm.mem_iff.mp (List.mem_cons_self b u)
      have hab : key a = key b := by
        have h1 : key b ≤ key a := by
          rcases List.mem_cons.mp hbinl1 with h | hb
          · rw [h]
          · exact (List.pairwise_cons.mp hs1).1 b hb
        have h2 : key a ≤ key b := by
          rcases List.mem_cons.mp hainl2 with h | ha2
          · rw [h]
          · exact (List.pairwise_cons.mp hs2).1 a ha2
        exact le_antisymm h2 h1
      have hae : a = b := by
        rcases List.mem_cons.mp hainl2 with h | _
        · exact h
        · rcases List.mem_cons.mp hbinl1 with h | hb
          · exact h.symm
          · exact absurd (hab ▸ List.mem_map_of_mem key hb) hnd2.1
      subst hae
      have hperm2 : t.Perm u := (List.perm_cons a).mp hp
      rw [ih u hperm2 (List.pairwise_cons.mp hs1).2 (List.pairwise_cons.mp hs2).2 hnd2.2]

theorem scoreFold_eq_map (sqrtQ : ℚ → ℚ) (qv : Vec) :
    ∀ l : List MemRow,
      (∀ m ∈ l, ∃ e, m.embedding = some e ∧ e ≠ [] ∧ e.length = qv.length) →
      scoreFold sqrtQ qv l =
        some (l.map (fun m => (simVal sqrtQ qv (m.embedding.getD []), m))) := by
  intro l
  induction l with
  | nil => intro _; rfl
  | cons m rest ih =>
    intro h
    obtain ⟨e, he, hne, hlen⟩ := h m (List.mem_cons_self m rest)
    have hsr : scoreRow sqrtQ qv m = ScoreRes.val (simVal sqrtQ qv e) := by
      unfold scoreRow fallbackEmb
      rw [he]
      simp only [fallbackEmbVal]
      rw [if_neg hne]
      simp only [scoreEmbVal]
      rw [if_neg (by simpa using hne), toVecM_map_num]
      simp only [scoreVecCand]
      rw [if_pos hlen]
    have ihr := ih (fun m2 hm2 => h m2 (List.mem_cons_of_mem m hm2))
    simp only [scoreFold, hsr, ihr, scoreStep, List.map_cons, he, Option.getD_some]

theorem nativeCands_eq_map (sqrtQ : ℚ → ℚ) (qv : Vec) :
    ∀ l : List MemRow,
      (∀ m ∈ l, ∃ e, m.embedding = some e ∧ e ≠ [] ∧ e.length = qv.length) →
      l.filterMap (fun r => nativeCand sqrtQ qv r r.embedding) =
        l.map (fun r => (r, simVal sqrtQ qv (r.embedding.getD []))) := by
  intro l
  induction l with
  | nil => intro _; rfl
  | cons m rest ih =>
    intro h
    obtain ⟨e, he, _, hlen⟩ := h m (List.mem_cons_self m rest)
    have hfm : nativeCand sqrtQ qv m m.embedding =
        some (m, simVal sqrtQ qv (m.embedding.getD [])) := by
      rw [he]
      simp only [nativeCand, cosSimE, Option.getD_some]
      rw [if_pos hlen.symm]
      rfl
    rw [List.filterMap_cons, hfm, List.map_cons,
      ih (fun m2 hm2 => h m2 (List.mem_cons_of_mem m hm2))]

/-- Claim C2 (amended): provided the owner has at most 200 stored rows (the
fallback scans only the 200 most-recently-updated), every row carries a
non-empty embedding of the query's dimension, and the similarity values are
pairwise distinct (no ties, whose order the two paths break differently), the
brute-force fallback returns exactly the native ranking: the same top-`k`
rows in the same order with identical similarity values (so equal ID sets and
similarity agreement well within 1e-6). -/
theorem retrieve_native_fallback_agree (sqrtQ : ℚ → ℚ) (st : List MemRow)
    (user : String) (qv : Vec) (k : Nat)
    (hcount : (st.filter (fun r => r.owner = user)).length ≤ 200)
    (hemb : ∀ m ∈ st.filter (fun r => r.owner = user),
      ∃ e, m.embedding = some e ∧ e ≠ [] ∧ e.length = qv.length)
    (hnodup : ((st.filter (fun r => r.owner = user)).map
      (fun m => simVal sqrtQ qv (m.embedding.getD []))).Nodup) :
    fallbackRetrieve sqrtQ st user qv k = some (nativeRetrieve sqrtQ st user qv k) := by
  have hres : (sortKeyDesc (fun r : MemRow => r.updated_at)
      (st.filter (fun r => r.owner = user))).take 200 =
      sortKeyDesc (fun r : MemRow => r.updated_at) (st.filter (fun r => r.owner = user)) :=
    List.take_of_length_le
      (by rw [(sortKeyDesc_perm _ _).length_eq]; exact hcount)
  have hresperm : (sortKeyDesc (fun r : MemRow => r.updated_at)
      (st.filter (fun r => r.owner = user))).Perm (st.filter (fun r => r.owner = user)) :=
    sortKeyDesc_perm _ _
  have hembres : ∀ m ∈ sortKeyDesc (fun r : MemRow => r.updated_at)
      (st.filter (fun r => r.owner = user)),
      ∃ e, m.embedding = some e ∧ e ≠ [] ∧ e.length = qv.length :=
    fun m hm => hemb m (hresperm.mem_iff.mp hm)
  have hscore := scoreFold_eq_map sqrtQ qv _ hembres
  have hcands := nativeCands_eq_map sqrtQ qv _ hemb
  unfold fallbackRetrieve nativeRetrieve
  dsimp only
  rw [hres, hscore, hcands]
  simp only [rankScored]
  refine congrArg some ?_
  set simf := fun m : MemRow => simVal sqrtQ qv (m.embedding.getD [])
  set own := st.filter (fun r => r.owner = user)
  set res := sortKeyDesc (fun r : MemRow => r.updated_at) own
  set A := sortRatKeyDesc (fun p : ℚ × MemRow => p.1) (res.map (fun m => (simf m, m)))
  set B := sortRatKeyDesc (fun p : MemRow × ℚ => p.2) (own.map (fun r => (r, simf r)))
  have hswap : A.map (fun p => (p.2, p.1)) = B := by
    apply eq_of_perm_sorted_key (fun p : MemRow × ℚ => p.2)
    · have h1 : (A.map (fun p => (p.2, p.1))).Perm
          ((res.map (fun m => (simf m, m))).map (fun p => (p.2, p.1))) :=
        (sortRatKeyDesc_perm _ _).map _
      have h2 : (res.map (fun m => (simf m, m))).map (fun p => (p.2, p.1)) =
          res.map (fun m => (m, simf m)) := by
        rw [List.map_map]
        rfl
      have h3 : (res.map (fun m => (m, simf m))).Perm
          (own.map (fun r => (r, simf r))) := hresperm.map _
      have h4 : B.Perm (own.map (fun r => (r, simf r))) := sortRatKeyDesc_perm _ _
      rw [h2] at h1
      exact (h1.trans h3).trans h4.symm
    · exact (List.pairwise_map).mpr
        (sortRatKeyDesc_pairwise (fun p : ℚ × MemRow => p.1) _)
    · exact sortRatKeyDesc_pairwise _ _
    · have hp1 : ((A.map (fun p => (p.2, p.1))).map (fun p : MemRow × ℚ => p.2)).Perm
          (((res.map (fun m => (simf m, m))).map (fun p => (p.2, p.1))).map
            (fun p : MemRow × ℚ => p.2)) :=
        ((sortRatKeyDesc_perm _ _).map _).map _
      have he1 : ((res.map (fun m => (simf m, m))).map (fun p => (p.2, p.1))).map
          (fun p : MemRow × ℚ => p.2) = res.map simf := by
        rw [List.map_map, List.map_map]
        rfl
      have hp2 : (res.map simf).Perm (own.map simf) := hresperm.map _
      rw [he1] at hp1
      exact (hp1.trans hp2).nodup_iff.mpr hnodup
  have hfin : (A.take k).map (fun p => (p.2, p.1)) =
      (A.map (fun p => (p.2, p.1))).take k := by
    rw [List.map_take]
  rw [hfin, hswap]

/-- Witness for C2 at a one-row store with a matching unit vector. -/
theorem retrieve_native_fallback_agree_witness :
    fallbackRetrieve (fun q => q) [wRowA] "u" [1, 0] 1 =
      some (nativeRetrieve (fun q => q) [wRowA] "u" [1, 0] 1) := by
  refine retrieve_native_fallback_agree (fun q => q) [wRowA] "u" [1, 0] 1 ?_ ?_ ?_
  · simp [wRowA]
  · intro m hm
    have h2 : m = wRowA := (by simpa using hm : m = wRowA ∧ m.owner = "u").1
    subst h2
    exact ⟨[1, 0], rfl, by simp, rfl⟩
  · have hf : ([wRowA].filter (fun r => r.owner = "u")) = [wRowA] := rfl
    rw [hf]
    simp

theorem orderedInsert_at_end {α : Type} (r : α → α → Prop) [DecidableRel r] (a : α) :
    ∀ l : List α, (∀ b ∈ l, ¬ r a b) → l.orderedInsert r a = l ++ [a] := by
  intro l
  induction l with
  | nil => intro _; rfl
  | cons b t ih =>
    intro h
    show (if r a b then a :: b :: t else b :: List.orderedInsert r a t) = (b :: t) ++ [a]
    rw [if_neg (h b (List.mem_cons_self b t)),
      ih (fun c hc => h c (List.mem_cons_of_mem b hc))]
    rfl

theorem pairwise_desc_map {β : Type} (key : β → ℚ) (g : Nat → β) (n : Nat)
    (h : ∀ i j, i < j → j < n → key (g j) < key (g i)) :
    ((List.range n).map g).Pairwise (fun a b => key b ≤ key a) := by
  refine (List.pairwise_map).mpr ?_
  refine (List.pairwise_lt_range n).imp_of_mem ?_
  intro i j hi hj hij
  exact le_of_lt (h i j hij (List.mem_range.mp hj))

theorem take_one_range_map {β : Type} (g : Nat → β) (n : Nat) :
    ((List.range (n + 1)).map g).take 1 = [g 0] := by
  rw [List.range_succ_eq_map]
  simp

theorem c2sumSq (m : Nat) : sumSq (c2emb m) = 1 := by
  have h : ((m : ℚ) * m + 1) ≠ 0 := by positivity
  unfold sumSq c2emb
  simp only [List.map_cons, List.map_nil, List.sum_cons, List.sum_nil]
  field_simp
  ring

theorem c2simVal (m : Nat) :
    simVal (fun q => q) [1, 0] (c2emb m) = c2sim m := by
  unfold simVal
  rw [c2sumSq]
  have h1 : sumSq [1, 0] = (1 : ℚ) := by norm_num [sumSq]
  rw [h1]
  norm_num [dot, c2emb, c2sim]

theorem c2sim_mono {m1 m2 : Nat} (h : m1 < m2) : c2sim m1 < c2sim m2 := by
  unfold c2sim
  have h1 : (0:ℚ) < (m1:ℚ) * m1 + 1 := by positivity
  have h2 : (0:ℚ) < (m2:ℚ) * m2 + 1 := by positivity
  rw [div_lt_div_iff₀ h1 h2]
  have hc : (m1 : ℚ) < m2 := by exact_mod_cast h
  have hnn : (0:ℚ) ≤ m1 := Nat.cast_nonneg m1
  nlinarith

theorem c2simf (m : Nat) :
    simVal (fun q => q) [1, 0] ((c2row m).embedding.getD []) = c2sim m := by
  show simVal (fun q => q) [1, 0] ((some (c2emb m)).getD []) = c2sim m
  rw [Option.getD_some]
  exact c2simVal m

theorem c2store_eq : c2store = c2row 202 :: c2tail := by
  unfold c2store c2tail
  rw [List.range_succ_eq_map]
  rw [List.map_cons, List.map_map]
  refine congrArg (fun l => c2row 202 :: l) ?_
  refine List.map_congr_left ?_
  intro j hj
  have : 202 - Nat.succ j = 201 - j := by omega
  simp only [Function.comp]
  rw [this]

theorem c2store_filter : c2store.filter (fun r => r.owner = "u") = c2store := by
  refine List.filter_eq_self.mpr ?_
  intro r hr
  rcases List.mem_map.mp hr with ⟨i, _, rfl⟩
  simp [c2row]

theorem c2store_spec : ∀ r ∈ c2store,
    ∃ e, r.embedding = some e ∧ e ≠ [] ∧ e.length = ([1, 0] : Vec).length := by
  intro r hr
  rcases List.mem_map.mp hr with ⟨i, _, rfl⟩
  exact ⟨c2emb (202 - i), rfl, by simp [c2emb], by simp [c2emb]⟩

theorem c2tail_spec : ∀ r ∈ c2tail,
    ∃ e, r.embedding = some e ∧ e ≠ [] ∧ e.length = ([1, 0] : Vec).length := by
  intro r hr
  refine c2store_spec r ?_
  rw [c2store_eq]
  exact List.mem_cons_of_mem _ hr

theorem c2tail_updated_sorted :
    c2tail.Pairwise (fun a b => b.updated_at ≤ a.updated_at) := by
  unfold c2tail
  refine (List.pairwise_map).mpr ?_
  refine (List.pairwise_lt_range 200).imp_of_mem ?_
  intro i j hi hj hij
  have hjn := List.mem_range.mp hj
  show (c2row (201 - j)).updated_at ≤ (c2row (201 - i)).updated_at
  unfold c2row
  simp only []
  split_ifs <;> omega

theorem c2sort_updated :
    sortKeyDesc (fun r : MemRow => r.updated_at) c2store = c2tail ++ [c2row 202] := by
  rw [c2store_eq]
  have h1 : sortKeyDesc (fun r : MemRow => r.updated_at) (c2row 202 :: c2tail) =
      List.orderedInsert (fun a b : MemRow => b.updated_at ≤ a.updated_at) (c2row 202)
        (sortKeyDesc (fun r : MemRow => r.updated_at) c2tail) := rfl
  rw [h1, sortKeyDesc_sorted_eq (fun r : MemRow => r.updated_at) c2tail
    c2tail_updated_sorted]
  refine orderedInsert_at_end _ _ c2tail ?_
  intro b hb
  rcases List.mem_map.mp hb with ⟨j, hj, rfl⟩
  have hjn := List.mem_range.mp hj
  show ¬ ((c2row (201 - j)).updated_at ≤ (c2row 202).updated_at)
  unfold c2row
  simp only []
  split_ifs <;> omega

theorem c2res :
    (sortKeyDesc (fun r : MemRow => r.updated_at)
      (c2store.filter (fun r => r.owner = "u"))).take 200 = c2tail := by
  rw [c2store_filter, c2sort_updated]
  have hlen : c2tail.length = 200 := by
    unfold c2tail
    rw [List.length_map, List.length_range]
  rw [← hlen, List.take_left]

/-- Counterexample for C2 as stated: an owner with 201 embedded memories
(`N = 201`, `top_k = 1 ≤ N`).  The best-matching row (id 202, similarity
closest to 1) is the least recently updated, so the brute-force fallback —
which scans only the 200 most-recently-updated rows — never sees it and
returns id 201, while the native vector query over all rows returns id 202:
the two paths return different top-1 ID sets. -/
theorem retrieve_window_cex :
    (nativeRetrieve (fun q => q) c2store "u" [1, 0] 1).map (fun p => p.1.id) = [202] ∧
    (fallbackRetrieve (fun q => q) c2store "u" [1, 0] 1).map
      (fun l => l.map (fun p => p.1.id)) = some ([201] : List Nat) := by
  constructor
  · unfold nativeRetrieve
    dsimp only
    rw [c2store_filter, nativeCands_eq_map (fun q => q) [1, 0] c2store c2store_spec]
    have hmap : c2store.map
        (fun r => (r, simVal (fun q => q) [1, 0] (r.embedding.getD []))) =
        (List.range 201).map
          (fun i => (c2row (202 - i), c2sim (202 - i))) := by
      unfold c2store
      rw [List.map_map]
      refine List.map_congr_left ?_
      intro i _
      simp only [Function.comp]
      rw [c2simf]
    rw [hmap]
    have hsorted := pairwise_desc_map (fun p : MemRow × ℚ => p.2)
      (fun i => (c2row (202 - i), c2sim (202 - i))) 201
      (by
        intro i j hij hj
        show c2sim (202 - j) < c2sim (202 - i)
        exact c2sim_mono (by omega))
    rw [sortRatKeyDesc_sorted_eq _ _ hsorted]
    rw [show (201 : Nat) = 200 + 1 from rfl, take_one_range_map]
    rfl
  · unfold fallbackRetrieve
    dsimp only
    rw [c2res, scoreFold_eq_map (fun q => q) [1, 0] c2tail c2tail_spec]
    simp only [rankScored]
    have hmap : c2tail.map
        (fun m => (simVal (fun q => q) [1, 0] (m.embedding.getD []), m)) =
        (List.range 200).map
          (fun j => (c2sim (201 - j), c2row (201 - j))) := by
      unfold c2tail
      rw [List.map_map]
      refine List.map_congr_left ?_
      intro j _
      simp only [Function.comp]
      rw [c2simf]
    rw [hmap]
    have hsorted := pairwise_desc_map (fun p : ℚ × MemRow => p.1)
      (fun j => (c2sim (201 - j), c2row (201 - j))) 200
      (by
        intro i j hij hj
        show c2sim (201 - j) < c2sim (201 - i)
        exact c2sim_mono (by omega))
    rw [sortRatKeyDesc_sorted_eq _ _ hsorted]
    rw [show (200 : Nat) = 199 + 1 from rfl, take_one_range_map]
    rfl

/-- Counterexample for C3 as stated: with the default six-slot schedule, five
rate-limit responses followed by a 400 `not a chat model` response lead to six
chat calls plus one legacy completions call — seven generation calls for one
candidate, exceeding `len(retry schedule) = 6`. -/
theorem provider_call_count_cex :
    (callProviderLoop c3cexProvider defaultRetrySchedule 0 none).2.1 = 7 ∧
    defaultRetrySchedule.length = 6 ∧
    (callProviderLoop c3cexProvider defaultRetrySchedule 0 none).2.2.count
      CallEvent.chatCall +
    (callProviderLoop c3cexProvider defaultRetrySchedule 0 none).2.2.count
      CallEvent.complCall = 7 := by
  refine ⟨by decide, rfl, by decide⟩

/-- Witness for C1: a one-row store whose stored unit vector matches the new
embedding exactly (similarity 1), so the call merges. -/
theorem create_memory_first_match_merge_witness :
    (create_memory (fun q => q) wEmbedUnit [wRowA] 9 3 "u" "t2".toList "y".toList
      (some wMd)).row.updated_at = 9 ∧
    (create_memory (fun q => q) wEmbedUnit [wRowA] 9 3 "u" "t2".toList "y".toList
      (some wMd)).store.length = 1 ∧
    (create_memory (fun q => q) wEmbedUnit [wRowA] 9 3 "u" "t2".toList "y".toList
      (some wMd)).merged = true := by
  have h := create_memory_first_match_merge (fun q => q) wEmbedUnit [wRowA] 9 3 "u"
    "t2".toList "y".toList wMd [1, 0] rfl (by simp [wRowA])
  have hf : (recentForDedup [wRowA] "u").find? (dedupMatch (fun q => q) [1, 0]) =
      some (projectRecent wRowA) := by
    norm_num [recentForDedup, sortKeyDesc, wRowA, dedupMatch, projectRecent, cosSimE,
      simVal, sumSq, dot, List.find?, List.insertionSort, List.orderedInsert]
  have h2 := h.2 (projectRecent wRowA) hf
  exact ⟨h2.2.1, h2.2.2.2.1, h2.2.2.2.2⟩

/-- Counterexample for C1 as stated: the merge does NOT append the new
metadata to a `references` list on the candidate's EXISTING metadata — the
dedup query selects only `id, memory_text, embedding, updated_at`, so
`r.get("metadata")` is always `None` and the stored metadata map (here the
binding of key `"k"`) is overwritten by the fresh references-only map. -/
theorem create_memory_metadata_overwrite_cex :
    (create_memory (fun q => q) wEmbedUnit [wRowA] 9 3 "u" "t2".toList "y".toList
      (some wMd)).merged = true ∧
    (create_memory (fun q => q) wEmbedUnit [wRowA] 9 3 "u" "t2".toList "y".toList
      (some wMd)).row.metadata = [("references", MVal.arr [MVal.obj wMd])] ∧
    metaLookup "k" (create_memory (fun q => q) wEmbedUnit [wRowA] 9 3 "u"
      "t2".toList "y".toList (some wMd)).row.metadata = none ∧
    metaLookup "k" wRowA.metadata = some (MVal.str "v".toList) := by
  have hout : create_memory (fun q => q) wEmbedUnit [wRowA] 9 3 "u" "t2".toList
      "y".toList (some wMd) =
      ⟨[mergedRow 9 wMd wRowA], mergedRow 9 wMd wRowA, true,
        [⟨some "u", some 1, "updated", [("reason", MVal.str "dedup".toList)]⟩]⟩ := by
    norm_num [create_memory, wEmbedUnit, recentForDedup, sortKeyDesc, wRowA,
      projectRecent, dedupLoop, cosSimE, simVal, sumSq, dot, mergeReferences,
      metaLookup, mergedRow, mergedMeta, List.insertionSort, List.orderedInsert,
      List.find?]
    rfl
  rw [hout]
  exact ⟨rfl, rfl, rfl, rfl⟩

/-- Witness for C4 with a constant provider and an always-failing parser. -/
theorem condense_parse_total_witness :
    condense (fun _ => ProviderResp.ok "not json at all".toList) (fun _ => none)
      (fun q => q) (fun _ => none) [0] ["m"] [] 7 1 "u" none =
      Except.ok ([], [], [⟨some "u", none, "condensed", [("count", MVal.num 0)]⟩]) :=
  condense_parse_total (fun _ => ProviderResp.ok "not json at all".toList)
    (fun _ => none) (fun q => q) (fun _ => none) 0 [] "m" [] [] 7 1 "u" none rfl rfl

end MemoryManager
